import Mathlib

/-!
Verification of the ingestion-to-retrieval core of a RAG file-uploader
(Next.js/TypeScript). The TypeScript sources are shallowly embedded:
JS strings become lists of characters, the document store becomes a list of
records, external providers (embedding model, vector index, completion model)
become function parameters, and the two potentially non-terminating loops
(the chunker's while loop, the batch for loop) are modelled with explicit
fuel, `none` denoting divergence of the JS loop. Floating-point literals
(0.6, 0.15) are modelled as the rationals they denote; for the integer
comparisons appearing in the code (`cut < end * 0.6`) this is exact except
on a measure-zero boundary that the double rounding also resolves the same
way for all sizes arising here.
-/

namespace Rag

/-- JS strings are modelled as lists of characters (the sources index only
by code unit over ASCII-range data). -/
abbrev Str := List Char

/-- Embed a Lean string literal into the model. -/
def s2l (s : String) : Str := s.data

/-- Whitespace as used by this code base (the ASCII subset of the JS `\s`
class and of `String.prototype.trim`). -/
def isWS (c : Char) : Bool := c = ' ' || c = '\t' || c = '\n' || c = '\r'

/-- JS `s.trimStart()` part of `trim`. -/
def trimLeft (l : Str) : Str := l.dropWhile isWS

/-- JS `s.trimEnd()` part of `trim`. -/
def trimRight (l : Str) : Str := (l.reverse.dropWhile isWS).reverse

/-- JS `s.trim()`. -/
def trim (l : Str) : Str := trimRight (trimLeft l)

/-- JS `s.slice(a, b)` for the patterns used in the sources (`0 ≤ a`, `b`
clamped to the length by the caller or by `take`). -/
def jsSlice (l : Str) (a b : Nat) : Str := (l.drop a).take (b - a)

/-- Positions (in increasing order) at which `pat` occurs in the suffix of
the scanned string, offset by `i`; worker for `indexOf`/`lastIndexOf`. -/
def occFrom (pat : Str) : Nat → Str → List Nat
  | i, [] => if pat.isEmpty then [i] else []
  | i, c :: rest =>
      (if List.isPrefixOf pat (c :: rest) then [i] else []) ++ occFrom pat (i + 1) rest

/-- All occurrence positions of `pat` in `l` (JS substring search). -/
def occurrences (pat l : Str) : List Nat := occFrom pat 0 l

/-- JS `l.indexOf(pat)`: first occurrence, `none` for JS `-1`. -/
def idxOf (pat l : Str) : Option Nat := (occurrences pat l).head?

/-- JS `l.lastIndexOf(pat)`: last occurrence, `none` for JS `-1`. -/
def lastIdxOf (pat l : Str) : Option Nat := (occurrences pat l).getLast?

/-- Decimal digit character, as produced by JS template-literal rendering of
a small non-negative integer. -/
def digitChar (d : Nat) : Char :=
  match d with
  | 0 => '0' | 1 => '1' | 2 => '2' | 3 => '3' | 4 => '4'
  | 5 => '5' | 6 => '6' | 7 => '7' | 8 => '8' | 9 => '9'
  | _ => '?'

/-- Numeric value of a decimal digit character (inverse of `digitChar`). -/
def digitVal (c : Char) : Nat :=
  match c with
  | '0' => 0 | '1' => 1 | '2' => 2 | '3' => 3 | '4' => 4
  | '5' => 5 | '6' => 6 | '7' => 7 | '8' => 8 | '9' => 9
  | _ => 0

/-- Worker for `natDigits`; the fuel only bounds the recursion depth and
`n + 1` is always enough (each step divides `n` by ten). -/
def natDigitsGo : Nat → Nat → Str
  | 0, _ => []
  | fuel + 1, n =>
    if n < 10 then [digitChar n]
    else natDigitsGo fuel (n / 10) ++ [digitChar (n % 10)]

/-- Decimal rendering of a natural number, as JS `${n}` renders a
non-negative integer. -/
def natDigits (n : Nat) : Str := natDigitsGo (n + 1) n

/-- Value of a digit string (left inverse of `natDigits`). -/
def digitsVal (l : Str) : Nat := l.foldl (fun a c => 10 * a + digitVal c) 0

/-- `a` occurs as one contiguous segment of `b`. -/
def SubSeg (a b : Str) : Prop := ∃ pre post, b = pre ++ a ++ post

/-! ### Chunker (src/chunk.ts) -/

/-- chunk.ts line 11. -/
def APPROX_CHARS_PER_TOKEN : Nat := 4

/-- chunk.ts lines 4-7. -/
structure TextChunk where
  chunkIndex : Nat
  content : Str
deriving DecidableEq, Repr

/-- The global regex replace `[ \t]+\n → \n` (chunk.ts line 49): drop every
space/tab that is immediately followed (through further spaces/tabs) by a
newline. -/
def squashLineEnds (l : Str) : Str :=
  l.foldr (fun c acc => if (c = ' ' || c = '\t') && acc.head? = some '\n' then acc else c :: acc) []

/-- The normalisation of the input text (chunk.ts lines 47-50): strip `\r`,
squash space/tab runs before newlines, trim both ends. -/
def cleanText (text : Str) : Str :=
  trim (squashLineEnds (text.filter (fun c => c ≠ '\r')))

/-- Cut-point selection inside one window (chunk.ts lines 70-80), translated
literally: `cut` is an integer that is -1 when a search fails, and the float
comparison `cut < end * 0.6` is the exact rational comparison
`5 * cut < 3 * end` (0.6 = 3/5). `endPos` is taken from the surrounding loop
and is the absolute end offset `min (start + maxChars) length`; `slice` is
the current window. -/
def chooseCut (endPos : Nat) (slice : Str) : Nat :=
  let toI : Option Nat → Int := fun o => match o with | some p => (p : Int) | none => -1
  let cut1 : Int := toI (lastIdxOf (s2l "\n\n") slice)
  let cut2 : Int := if 5 * cut1 < 3 * (endPos : Int) then toI (lastIdxOf (s2l ". ") slice) else cut1
  let cut3 : Int := if 5 * cut2 < 3 * (endPos : Int) then toI (lastIdxOf (s2l " ") slice) else cut2
  if cut3 ≤ 0 then slice.length else cut3.toNat

/-- One iteration of the chunker's while loop (chunk.ts lines 60-95),
parameterised by the cut-point selector. `Sum.inr` is the `break` at the end
of the text (after the current piece was emitted); `Sum.inl` carries the next
`(start, idx, chunks)`. `Math.max(0, nextStart - overlapChars)` is Nat
truncated subtraction. -/
def chunkStepWith (cutFn : Nat → Str → Nat) (maxChars overlap : Nat) (clean : Str)
    (start idx : Nat) (acc : List TextChunk) : (Nat × Nat × List TextChunk) ⊕ List TextChunk :=
  let endPos := min (start + maxChars) clean.length
  let slice := jsSlice clean start endPos
  let cut := cutFn endPos slice
  let piece := trim (slice.take cut)
  let idx2 := if piece.isEmpty then idx else idx + 1
  let acc2 := if piece.isEmpty then acc else acc ++ [⟨idx, piece⟩]
  if clean.length ≤ endPos then Sum.inr acc2
  else Sum.inl (start + piece.length - overlap, idx2, acc2)

/-- The chunker's while loop with explicit fuel; `none` models that the JS
loop does not terminate. The next start position depends only on the current
start position, so a JS run that terminates never revisits a start value and
performs at most `clean.length` iterations: fuel `clean.length + 1` is enough
for every terminating run. -/
def chunkLoopWith (cutFn : Nat → Str → Nat) (maxChars overlap : Nat) (clean : Str) :
    Nat → Nat → Nat → List TextChunk → Option (List TextChunk)
  | 0, _, _, _ => none
  | fuel + 1, start, idx, acc =>
    if clean.length ≤ start then some acc
    else
      match chunkStepWith cutFn maxChars overlap clean start idx acc with
      | Sum.inr done => some done
      | Sum.inl (s2, i2, a2) => chunkLoopWith cutFn maxChars overlap clean fuel s2 i2 a2

/-- chunkText (chunk.ts lines 31-99), parameterised by the cut-point
selector. -/
def chunkTextWith (cutFn : Nat → Str → Nat) (text : Str) (maxTokens overlapTokens : Nat) :
    Option (List TextChunk) :=
  if (trim text).isEmpty then some []
  else
    let maxChars := maxTokens * APPROX_CHARS_PER_TOKEN
    let overlap := overlapTokens * APPROX_CHARS_PER_TOKEN
    let clean := cleanText text
    chunkLoopWith cutFn maxChars overlap clean (clean.length + 1) 0 0 []

/-- The source chunker: `chunkText` with the source's cut cascade. -/
def chunkText (text : Str) (maxTokens overlapTokens : Nat) : Option (List TextChunk) :=
  chunkTextWith chooseCut text maxTokens overlapTokens

/-- Modelled from the claim's words, for comparison only: the cut cascade
with the 60% threshold measured against the window length (`slice.length`)
rather than against the absolute end offset, and with the word-boundary step
taking the last space unconditionally. -/
def chooseCutClaim (_endPos : Nat) (slice : Str) : Nat :=
  let keep : Option Nat → Option Nat :=
    fun o => o.filter (fun p => decide (3 * slice.length ≤ 5 * p))
  let pick : Option Nat :=
    keep (lastIdxOf (s2l "\n\n") slice) <|> keep (lastIdxOf (s2l ". ") slice) <|>
      lastIdxOf (s2l " ") slice
  match pick with
  | some p => p
  | none => slice.length

/-- The amended cascade, written from the amended claim: paragraph break if
at or after 60% of the absolute end offset, else sentence boundary under the
same threshold, else the last space if its index is positive, else the full
window length (a selected index of 0 also falls back to the full window). -/
def chooseCutSpec (endPos : Nat) (slice : Str) : Nat :=
  let keep : Option Nat → Option Nat :=
    fun o => o.filter (fun p => decide (3 * endPos ≤ 5 * p))
  let pick : Option Nat :=
    keep (lastIdxOf (s2l "\n\n") slice) <|> keep (lastIdxOf (s2l ". ") slice) <|>
      lastIdxOf (s2l " ") slice
  match pick with
  | some p => if p = 0 then slice.length else p
  | none => slice.length

/-! ### Retrieval: snippets, context packing, confidence gate
(src/app/api/chat/route.ts, src/app/api/search/route.ts) -/

/-- Lowercasing of a JS string (`toLowerCase`, ASCII-faithful). -/
def toLowerStr (l : Str) : Str := l.map Char.toLower

/-- `query.toLowerCase().split(/\s+/).filter(Boolean)` (chat route line 43,
search route line 17): split on whitespace runs, keep the non-empty parts. -/
def queryTerms (query : Str) : List Str :=
  ((toLowerStr query).splitOnP isWS).filter (fun t => !t.isEmpty)

/-- The chat route additionally keeps at most 5 terms (`.slice(0, 5)`). -/
def chatTerms (query : Str) : List Str := (queryTerms query).take 5

/-- The term-scan loop of makeSnippet (chat route lines 52-59): index of the
first occurrence in `hay` of the first term that occurs at all. -/
def firstHitIdx (hay : Str) : List Str → Option Nat
  | [] => none
  | t :: ts =>
    match idxOf t hay with
    | some i => some i
    | none => firstHitIdx hay ts

/-- A snippet before the ellipsis markers are attached: whether a leading
marker is due, the contiguous core text, whether a trailing marker is due. -/
structure SnippetParts where
  preMark : Bool
  core : Str
  postMark : Bool
deriving DecidableEq, Repr

/-- makeSnippet (chat route lines 39-76 and, with the same body, search route
lines 15-37), split into its core text and its ellipsis markers. The window
arithmetic uses `terms[0].length` (the FIRST extracted term), not the length
of the term that was actually found. `Math.max(0, idx - radius)` is Nat
truncated subtraction. -/
def makeSnippetParts (terms : List Str) (text : Str) (radius : Nat) : SnippetParts :=
  if text.isEmpty then ⟨false, [], false⟩
  else if terms.isEmpty then
    if 2 * radius < text.length then ⟨false, text.take (2 * radius), true⟩
    else ⟨false, text, false⟩
  else
    let hay := toLowerStr text
    match firstHitIdx hay terms with
    | none =>
      if 2 * radius < text.length then ⟨false, text.take (2 * radius), true⟩
      else ⟨false, text, false⟩
    | some idx =>
      let t0 := terms.headD []
      let start := idx - radius
      let endP := min text.length (idx + t0.length + radius)
      ⟨0 < start, trim (jsSlice text start endP), endP < text.length⟩

/-- Reattach the ellipsis markers (chat route lines 72-75). -/
def assembleSnippet (p : SnippetParts) : Str :=
  (if p.preMark then s2l "…" else []) ++ p.core ++ (if p.postMark then s2l "…" else [])

/-- makeSnippet of the chat route (default radius 220 at its call site). -/
def makeSnippetChat (text query : Str) (radius : Nat) : Str :=
  assembleSnippet (makeSnippetParts (chatTerms query) text radius)

/-- makeSnippet of the search route (no cap on the number of terms; default
radius 180 at its call site). -/
def makeSnippetSearch (text query : Str) (radius : Nat) : Str :=
  assembleSnippet (makeSnippetParts (queryTerms query) text radius)

/-- One match returned by the vector index (`res.matches[i]` with its
metadata; `score` is `none` when the index omitted it, and scores are
modelled as rationals). Content is `(m.metadata?.content as string) || ""`,
so a missing content is the empty string. -/
structure QMatch where
  score : Option ℚ
  documentId : Str
  filename : Str
  chunkIndex : Nat
  content : Str
deriving DecidableEq, Repr

/-- One element of the `sources` array built by packContext. -/
structure ChatSource where
  idx : Nat
  documentId : Str
  filename : Str
  chunkIndex : Nat
  snippet : Str
  score : ℚ
deriving DecidableEq, Repr

/-- The citation line `"[n] <filename> (chunk <chunkIndex>): <snippet>\n\n"`
(chat route line 107). -/
def mkLine (idx : Nat) (m : QMatch) (snippet : Str) : Str :=
  s2l "[" ++ natDigits idx ++ s2l "] " ++ m.filename ++ s2l " (chunk " ++
    natDigits m.chunkIndex ++ s2l "): " ++ snippet ++ s2l "\n\n"

/-- The loop of packContext (chat route lines 101-123): skip matches without
content, stop as soon as the next line would push the context past the
character budget, otherwise append the line and record the source. -/
def packContextGo (question : Str) (charBudget : Nat) :
    List QMatch → Nat → Str → List ChatSource → List ChatSource × Str
  | [], _, ctx, srcs => (srcs, trim ctx)
  | m :: ms, idx, ctx, srcs =>
    if m.content.isEmpty then packContextGo question charBudget ms idx ctx srcs
    else
      let snippet := makeSnippetChat m.content question 220
      let line := mkLine idx m snippet
      if charBudget < ctx.length + line.length then (srcs, trim ctx)
      else
        packContextGo question charBudget ms (idx + 1) (ctx ++ line)
          (srcs ++ [⟨idx, m.documentId, m.filename, m.chunkIndex, snippet, m.score.getD 0⟩])

/-- packContext (chat route lines 87-126). -/
def packContext (ms : List QMatch) (question : Str) (charBudget : Nat) :
    List ChatSource × Str :=
  packContextGo question charBudget ms 1 [] []

/-- The `topK` the chat route requests from the vector index
(`Math.max(k, 8)`, chat route line 181). -/
def chatTopK (k : Nat) : Nat := max k 8

/-- The confidence threshold 0.15 (chat route line 190), as a rational. -/
def CONFIDENCE_THRESHOLD : ℚ := 15 / 100

/-- The fixed refusal answer (chat route lines 192-193). -/
def refusalText : Str :=
  s2l "I don't have enough information in the uploaded documents to answer that."

/-- Message roles of the completion request. -/
inductive Role
  | system
  | user
  | assistant
deriving DecidableEq, Repr

/-- One message of the completion request. -/
structure Msg where
  role : Role
  content : Str
deriving DecidableEq, Repr

/-- The system instruction (chat route lines 202-206). -/
def systemText : Str :=
  s2l "You are a helpful assistant that answers ONLY from the provided context. If the answer is not in the context, say: \"I don't have enough information in the uploaded documents to answer that.\" Keep answers concise. Include inline citations like [1], [2] that refer to the sources list."

/-- The user turn (chat route lines 208-215). -/
def userText (question context : Str) : Str :=
  s2l "Question:\n" ++ question ++ s2l "\n" ++ s2l "\n" ++ s2l "Context (excerpts):\n" ++
    (if context.isEmpty then s2l "(no context)" else context) ++ s2l "\n" ++
    s2l "\nInstructions:" ++ s2l "\n" ++ s2l "- Answer using only the context excerpts above." ++
    s2l "\n" ++ s2l "- When a sentence comes from an excerpt, add [n] with the correct number." ++
    s2l "\n" ++ s2l "- If the context is insufficient, say so plainly."

/-- Result of the chat endpoint after the vector query: the answer, the
source list, and whether the completion provider was invoked at all. -/
structure ChatOut where
  answer : Str
  sources : List ChatSource
  genCalled : Bool
deriving DecidableEq, Repr

/-- The chat route after the vector query (chat route lines 186-243): the
confidence gate `!matches.length || best < 0.15` short-circuits with the
refusal and no generation call; otherwise the context is packed, the message
list (system, last 4 history turns, user) is built and the completion
provider `gen` is called. -/
def chatRespond (gen : List Msg → Str) (question : Str) (history : List Msg)
    (ms : List QMatch) : ChatOut :=
  let best : ℚ := (ms.head?.bind (·.score)).getD 0
  if ms.isEmpty || decide (best < CONFIDENCE_THRESHOLD) then
    ⟨refusalText, [], false⟩
  else
    let packed := packContext ms question 2400
    let messages :=
      ⟨Role.system, systemText⟩ :: (history.drop (history.length - 4)) ++
        [⟨Role.user, userText question packed.2⟩]
    ⟨gen messages, packed.1, true⟩

/-! ### Document store and lifecycle (src/lib/store.ts, upload route,
maintenance sweep, embedding route) -/

/-- lib/store.ts lines 15-20. -/
inductive PStatus
  | uploading
  | extracting
  | embedding
  | completed
  | error
deriving DecidableEq, Repr

/-- DocumentRecord (lib/store.ts lines 22-33). `uploadDate` is epoch
milliseconds (the sweep compares `new Date(d.uploadDate).getTime()` against
`Date.now()`); the opaque `metadata` bag is omitted, no modelled code reads
it. -/
structure DocRecord where
  id : Str
  filename : Str
  fileType : Str
  fileSize : Nat
  uploadDate : Int
  extractedContent : Option Str
  processingStatus : PStatus
  chunkCount : Option Nat
  errorMessage : Option Str
deriving DecidableEq, Repr

/-- A partial patch as passed to `store.update`; `none` means the field is
absent from the patch object. -/
structure DocPatch where
  extractedContent : Option Str := none
  processingStatus : Option PStatus := none
  chunkCount : Option Nat := none
  errorMessage : Option Str := none
deriving DecidableEq, Repr

/-- `store.update` merge semantics (lib/store.ts lines 106-126):
`next = { ...curr, ...patch }`, so a field not named by the patch keeps its
current value — in particular an existing `chunkCount` survives a patch that
only sets status and message. -/
def applyPatch (d : DocRecord) (p : DocPatch) : DocRecord :=
  { d with
    extractedContent := match p.extractedContent with
      | some t => some t
      | none => d.extractedContent
    processingStatus := p.processingStatus.getD d.processingStatus
    chunkCount := match p.chunkCount with
      | some n => some n
      | none => d.chunkCount
    errorMessage := match p.errorMessage with
      | some m => some m
      | none => d.errorMessage }

/-- The store as the list of document records. `update` on a missing id is a
no-op. -/
def storeUpdate (docs : List DocRecord) (id : Str) (p : DocPatch) : List DocRecord :=
  docs.map (fun d => if d.id = id then applyPatch d p else d)

/-- `store.get`. -/
def storeGet (docs : List DocRecord) (id : Str) : Option DocRecord :=
  docs.find? (fun d => d.id = id)

/-- `store.delete`. -/
def storeDelete (docs : List DocRecord) (id : Str) : List DocRecord :=
  docs.filter (fun d => d.id ≠ id)

/-- The effect of the upload route on the store for one accepted file
(upload route lines 97-201): create the record in status `extracting`, then
either the extractor succeeds (fill `extractedContent`, move to `embedding`)
or it throws (move to `error` with the thrown message, modelled by a fixed
string). -/
def uploadOne (id filename fileType : Str) (fileSize : Nat) (now : Int)
    (outcome : Option Str) (docs : List DocRecord) : List DocRecord :=
  let base : DocRecord :=
    ⟨id, filename, fileType, fileSize, now, none, PStatus.extracting, none, none⟩
  let docs1 := docs ++ [base]
  match outcome with
  | some text =>
    storeUpdate docs1 id { extractedContent := some text, processingStatus := some .embedding }
  | none =>
    storeUpdate docs1 id { processingStatus := some .error, errorMessage := some (s2l "Extraction error") }

/-- The synthetic message of the stuck-document sweep. -/
def STUCK_MSG : Str := s2l "Manual intervention - processing was stuck"

/-- The patch the sweep applies to each stuck document. -/
def stuckPatch : DocPatch :=
  { processingStatus := some .error, errorMessage := some STUCK_MSG }

/-- The sweep's selection predicate (maintenance route lines 44-47): status
is `extracting` AND the upload time is more than 2 minutes before `now`. -/
def stuckFilter (now : Int) (d : DocRecord) : Bool :=
  decide (d.processingStatus = PStatus.extracting) &&
    decide (d.uploadDate < now - 2 * 60 * 1000)

/-- The stuck-document maintenance sweep (maintenance route lines 41-68):
update every selected document and report the fixed ids. -/
def sweepRoute (now : Int) (docs : List DocRecord) : List DocRecord × List Str :=
  let stuck := docs.filter (stuckFilter now)
  (stuck.foldl (fun st d => storeUpdate st d.id stuckPatch) docs, stuck.map (·.id))

/-! ### Embedding pipeline (embedding route, src/app/api/documents/[id] part) -/

/-- A vector record upserted into the index (embedding route lines 171-207).
`E` is the opaque embedding type returned by the provider. -/
structure VectorRecord (E : Type) where
  id : Str
  values : E
  mdDocumentId : Str
  mdFilename : Str
  mdFileType : Str
  mdUploadDate : Int
  mdChunkIndex : Nat
  mdContent : Str
deriving DecidableEq, Repr

/-- The deterministic vector id `` `${doc.id}-${chunk.chunkIndex}` ``
(embedding route line 196). -/
def vectorId (docId : Str) (chunkIndex : Nat) : Str :=
  docId ++ s2l "-" ++ natDigits chunkIndex

/-- The vector built for one chunk and its embedding (embedding route lines
192-207). -/
def mkVector {E : Type} (doc : DocRecord) (pair : TextChunk × E) : VectorRecord E :=
  { id := vectorId doc.id pair.1.chunkIndex
    values := pair.2
    mdDocumentId := doc.id
    mdFilename := doc.filename
    mdFileType := doc.fileType
    mdUploadDate := doc.uploadDate
    mdChunkIndex := pair.1.chunkIndex
    mdContent := pair.1.content }

/-- The batch loop (embedding route lines 178-208). `embed` models one call
to the embedding provider (`none` = the call throws). The result is the list
of (chunk, embedding) pairs pushed into `vectors`, in order; `none` overall
models a thrown error inside the loop — a failed provider call, or a provider
response longer than the batch (the JS callback would then read a field of
`undefined`) — or `batchSize = 0`, on which the JS `for` loop never
advances. A response shorter than the batch silently yields fewer pairs,
exactly as the JS `forEach` does. -/
def embedBatchesGo {E : Type} (embed : List Str → Option (List E)) (batchSize : Nat) :
    Nat → List TextChunk → Option (List (TextChunk × E))
  | _, [] => some []
  | 0, _ :: _ => none
  | fuel + 1, c :: cs =>
    if batchSize = 0 then none
    else
      match embed (((c :: cs).take batchSize).map (·.content)) with
      | none => none
      | some embs =>
        if ((c :: cs).take batchSize).length < embs.length then none
        else
          match embedBatchesGo embed batchSize fuel ((c :: cs).drop batchSize) with
          | none => none
          | some rest => some (((c :: cs).take batchSize).zip embs ++ rest)

/-- The batch loop entered with enough fuel for any positive batch size
(every iteration consumes at least one chunk). -/
def embedBatches {E : Type} (embed : List Str → Option (List E)) (batchSize : Nat)
    (chunks : List TextChunk) : Option (List (TextChunk × E)) :=
  embedBatchesGo embed batchSize chunks.length chunks

/-- Outcome of processing one document: the patch written to the store, the
upsert calls made to the vector index (each one the list of records passed to
`index.upsert`), and whether the document landed in `processed` (true) or
`failures` (false). -/
structure ProcResult (E : Type) where
  patch : DocPatch
  upsertCalls : List (List (VectorRecord E))
  ok : Bool
deriving DecidableEq, Repr

/-- Per-document body of the embedding route (lines 155-234): fail fast on
missing/blank `extractedContent`, chunk with the fixed budget (1000, 100),
fail on zero chunks, run the batch loop, and only then perform ONE upsert of
all accumulated vectors and mark the document completed with its chunk
count; any thrown error instead patches status `error` (the thrown message
is modelled by the route's fallback string). `none` models a diverging loop
(JS hangs). -/
def processDoc {E : Type} (embed : List Str → Option (List E)) (batchSize : Nat)
    (doc : DocRecord) : Option (ProcResult E) :=
  if (trim (doc.extractedContent.getD [])).isEmpty then
    some ⟨{ processingStatus := some .error,
            errorMessage := some (s2l "Document has no extractedContent") }, [], false⟩
  else
    match chunkText (doc.extractedContent.getD []) 1000 100 with
    | none => none
    | some chunks =>
      if chunks.isEmpty then
        some ⟨{ processingStatus := some .error,
                errorMessage := some (s2l "No chunks produced") }, [], false⟩
      else
        match embedBatches embed batchSize chunks with
        | none =>
          some ⟨{ processingStatus := some .error,
                  errorMessage := some (s2l "Embedding/indexing failed") }, [], false⟩
        | some pairs =>
          some ⟨{ chunkCount := some chunks.length, processingStatus := some .completed },
                [pairs.map (mkVector doc)], true⟩

/-- Modelled from the claim's words, for comparison only: the same
per-document pipeline but upserting EACH batch's vectors as that batch
completes, so a failure in a later batch leaves the earlier batches' upsert
calls already made. -/
def embedBatchesClaimGo {E : Type} (embed : List Str → Option (List E)) (batchSize : Nat) :
    Nat → List TextChunk → List (List (TextChunk × E)) × Bool
  | _, [] => ([], true)
  | 0, _ :: _ => ([], false)
  | fuel + 1, c :: cs =>
    if batchSize = 0 then ([], false)
    else
      match embed (((c :: cs).take batchSize).map (·.content)) with
      | none => ([], false)
      | some embs =>
        if ((c :: cs).take batchSize).length < embs.length then ([], false)
        else
          match embedBatchesClaimGo embed batchSize fuel ((c :: cs).drop batchSize) with
          | (rest, ok) => (((c :: cs).take batchSize).zip embs :: rest, ok)

/-- Entry point of the per-batch-upsert variant. -/
def embedBatchesClaim {E : Type} (embed : List Str → Option (List E)) (batchSize : Nat)
    (chunks : List TextChunk) : List (List (TextChunk × E)) × Bool :=
  embedBatchesClaimGo embed batchSize chunks.length chunks

/-- Modelled from the claim's words, for comparison only: per-document
processing with per-batch upserts. -/
def processDocClaim {E : Type} (embed : List Str → Option (List E)) (batchSize : Nat)
    (doc : DocRecord) : Option (ProcResult E) :=
  if (trim (doc.extractedContent.getD [])).isEmpty then
    some ⟨{ processingStatus := some .error,
            errorMessage := some (s2l "Document has no extractedContent") }, [], false⟩
  else
    match chunkText (doc.extractedContent.getD []) 1000 100 with
    | none => none
    | some chunks =>
      if chunks.isEmpty then
        some ⟨{ processingStatus := some .error,
                errorMessage := some (s2l "No chunks produced") }, [], false⟩
      else
        match embedBatchesClaim embed batchSize chunks with
        | (batches, ok) =>
          if ok then
            some ⟨{ chunkCount := some chunks.length, processingStatus := some .completed },
                  batches.map (fun b => b.map (mkVector doc)), true⟩
          else
            some ⟨{ processingStatus := some .error,
                    errorMessage := some (s2l "Embedding/indexing failed") },
                  batches.map (fun b => b.map (mkVector doc)), false⟩

/-- The per-target loop of the embedding route (lines 155-235): process each
target in order against the store state, applying each target's patch as it
finishes; collects all upsert calls. -/
def embedRouteGo {E : Type} (embed : List Str → Option (List E)) (batchSize : Nat) :
    List DocRecord → List DocRecord → List (List (VectorRecord E)) →
    Option (List DocRecord × List (List (VectorRecord E)))
  | [], st, calls => some (st, calls)
  | t :: ts, st, calls =>
    match processDoc embed batchSize t with
    | none => none
    | some res => embedRouteGo embed batchSize ts (storeUpdate st t.id res.patch) (calls ++ res.upsertCalls)

/-- POST of the embedding route (lines 108-246): with a `documentId` the
single fetched record is processed REGARDLESS of its status; without one,
exactly the records in status `embedding` are processed. -/
def embedRoute {E : Type} (embed : List Str → Option (List E)) (documentId : Option Str)
    (batchSize : Nat) (docs : List DocRecord) :
    Option (List DocRecord × List (List (VectorRecord E))) :=
  let targets : List DocRecord :=
    match documentId with
    | some id => (storeGet docs id).toList
    | none => docs.filter (fun d => d.processingStatus = PStatus.embedding)
  embedRouteGo embed batchSize targets docs []

/-- The embedding-provider contract of spec §6: one embedding per input.
Hypothesis of the idempotence claim. -/
def LenPres {E : Type} (embed : List Str → Option (List E)) : Prop :=
  ∀ inp out, embed inp = some out → out.length = inp.length

/-- All states of the document store reachable through the modelled
endpoints, from the empty store: file upload (with either extractor
outcome), the embedding route (either invocation mode, any provider
behaviour), the maintenance sweep, and document deletion. -/
inductive Reachable : List DocRecord → Prop
  | init : Reachable []
  | upload : ∀ {s} id filename fileType fileSize now outcome, Reachable s →
      Reachable (uploadOne id filename fileType fileSize now outcome s)
  | embedRun : ∀ {s s'} (E : Type) (embed : List Str → Option (List E)) oid bs calls,
      Reachable s → embedRoute embed oid bs s = some (s', calls) → Reachable s'
  | sweep : ∀ {s} now, Reachable s → Reachable (sweepRoute now s).1
  | del : ∀ {s} id, Reachable s → Reachable (storeDelete s id)

/-- The chunk list of a document under the route's fixed budget, used to
state idempotence. -/
def chunksOf (doc : DocRecord) : List TextChunk :=
  (chunkText (doc.extractedContent.getD []) 1000 100).getD []

/-- The vector ids sent to the index by one processing run. -/
def vecIds {E : Type} (res : ProcResult E) : List Str :=
  res.upsertCalls.flatten.map (·.id)

/-! ### Concrete instances used by counterexamples and witnesses -/

/-- A provider that embeds every input (to 0). -/
def emOK : List Str → Option (List Nat) := fun inp => some (inp.map (fun _ => 0))

/-- A second always-succeeding provider with different values. -/
def emOne : List Str → Option (List Nat) := fun inp => some (inp.map (fun _ => 1))

/-- A provider whose call always throws. -/
def emFail : List Str → Option (List Nat) := fun _ => none

/-- Store after uploading one small text file whose extraction succeeded. -/
def exS1 : List DocRecord :=
  uploadOne (s2l "d1") (s2l "f.txt") (s2l "text/plain") 5 0 (some (s2l "hello")) []

/-- The same document after a successful embedding run. -/
def exDocDone : DocRecord :=
  ⟨s2l "d1", s2l "f.txt", s2l "text/plain", 5, 0, some (s2l "hello"),
    PStatus.completed, some 1, none⟩

/-- The single vector of that run. -/
def exVec : VectorRecord Nat :=
  ⟨s2l "d1-0", 0, s2l "d1", s2l "f.txt", s2l "text/plain", 0, 0, s2l "hello"⟩

/-- The same document after a second run whose provider threw: status is
`error` while the stale `chunkCount` from the completed run survives the
merge-semantics update. -/
def exDocErr : DocRecord :=
  ⟨s2l "d1", s2l "f.txt", s2l "text/plain", 5, 0, some (s2l "hello"),
    PStatus.error, some 1, some (s2l "Embedding/indexing failed")⟩

/-- A document already in terminal status `error` that still has extractable
content (as left behind by a failed provider call). -/
def errDoc : DocRecord :=
  ⟨s2l "e1", s2l "g.txt", s2l "text/plain", 5, 0, some (s2l "hello"),
    PStatus.error, none, some (s2l "boom")⟩

/-- What the by-id embedding call turns `errDoc` into. -/
def errDocAfter : DocRecord :=
  ⟨s2l "e1", s2l "g.txt", s2l "text/plain", 5, 0, some (s2l "hello"),
    PStatus.completed, some 1, some (s2l "boom")⟩

/-- 4001 non-whitespace characters: chunks into a 4000-char chunk and a
401-char chunk under the route's fixed (1000, 100) budget. -/
def bigContent : Str := List.replicate 4001 'x'

/-- A document in status `embedding` holding `bigContent`. -/
def bigDoc : DocRecord :=
  ⟨s2l "b1", s2l "big.txt", s2l "text/plain", 4001, 0, some bigContent,
    PStatus.embedding, none, none⟩

/-- A provider that succeeds exactly on the first batch of `bigDoc` under
batch size 1 (the single 4000-character input, recognised by its length) and
throws on any other call. -/
def emFirstBatch : List Str → Option (List Nat) :=
  fun inp => if inp.map List.length = [4000] then some [0] else none

/-- The chunks of `bigContent` under the route's fixed budget. -/
def exBigChunks : List TextChunk :=
  [⟨0, List.replicate 4000 'x'⟩, ⟨1, List.replicate 401 'x'⟩]

/-- The vector of `bigDoc`'s first chunk. -/
def bigVec0 : VectorRecord Nat :=
  ⟨s2l "b1-0", 0, s2l "b1", s2l "big.txt", s2l "text/plain", 0, 0, List.replicate 4000 'x'⟩

/-- The second always-succeeding provider's vector for `exS1`'s document. -/
def exVecOne : VectorRecord Nat :=
  ⟨s2l "d1-0", 1, s2l "d1", s2l "f.txt", s2l "text/plain", 0, 0, s2l "hello"⟩

/-- Result of processing `exDocDone` with `emOK`. -/
def exRes1 : ProcResult Nat :=
  ⟨{ chunkCount := some 1, processingStatus := some PStatus.completed }, [[exVec]], true⟩

/-- Result of processing `exDocDone` with `emOne`. -/
def exRes2 : ProcResult Nat :=
  ⟨{ chunkCount := some 1, processingStatus := some PStatus.completed }, [[exVecOne]], true⟩

/-- A stale document stuck in status `embedding` (uploaded at time 0,
swept more than 2 minutes later). -/
def embStuckDoc : DocRecord :=
  ⟨s2l "s1", s2l "s.txt", s2l "text/plain", 1, 0, some (s2l "hello"),
    PStatus.embedding, none, none⟩

/-- A stale document stuck in status `extracting`. -/
def extStuckDoc : DocRecord :=
  ⟨s2l "s2", s2l "t.txt", s2l "text/plain", 1, 0, none,
    PStatus.extracting, none, none⟩

/-- An already failed document (for sweep idempotence). -/
def errSweepDoc : DocRecord :=
  ⟨s2l "s3", s2l "u.txt", s2l "text/plain", 1, 0, none,
    PStatus.error, none, some STUCK_MSG⟩

/-- The input of the chunker-cascade counterexample: 12 unbroken characters
followed by a window whose paragraph break sits at 8/12 = 66% of the window
but below 60% of the absolute end offset 24. -/
def cexC6 : Str := s2l "abcdefghijklabcdefgh\n\nxy"

/-- Three identical short high-scoring matches. -/
def shortMatch (i : Nat) : QMatch := ⟨some 1, s2l "d1", s2l "f", i, s2l "a"⟩

/-! ## Theorems -/

/-! ### Decimal rendering is injective -/

theorem digitVal_digitChar {d : Nat} (h : d < 10) : digitVal (digitChar d) = d := by
  interval_cases d <;> rfl

theorem digitsVal_append_last (l : Str) (c : Char) :
    digitsVal (l ++ [c]) = 10 * digitsVal l + digitVal c := by
  simp [digitsVal, List.foldl_append]

theorem digitsVal_natDigitsGo : ∀ fuel n, n < fuel → digitsVal (natDigitsGo fuel n) = n := by
  intro fuel
  induction fuel with
  | zero => omega
  | succ fuel ih =>
    intro n hn
    by_cases h10 : n < 10
    · simp [natDigitsGo, h10, digitsVal, digitVal_digitChar h10]
    · have hdiv : n / 10 < fuel := by omega
      simp only [natDigitsGo, if_neg h10, digitsVal_append_last, ih _ hdiv,
        digitVal_digitChar (Nat.mod_lt n (by omega))]
      omega

theorem digitsVal_natDigits (n : Nat) : digitsVal (natDigits n) = n :=
  digitsVal_natDigitsGo (n + 1) n (Nat.lt_succ_self n)

theorem natDigits_injective {a b : Nat} (h : natDigits a = natDigits b) : a = b := by
  have := digitsVal_natDigits a
  rw [h, digitsVal_natDigits] at this
  omega

theorem vectorId_inj {docId : Str} {i j : Nat} (h : vectorId docId i = vectorId docId j) :
    i = j := by
  unfold vectorId at h
  exact natDigits_injective (List.append_cancel_left h)

/-! ### Contiguous-segment facts -/

theorem subseg_nil (l : Str) : SubSeg [] l := ⟨[], l, rfl⟩

theorem subseg_refl (l : Str) : SubSeg l l := ⟨[], [], by simp⟩

theorem subseg_take (l : Str) (n : Nat) : SubSeg (l.take n) l :=
  ⟨[], l.drop n, by simp⟩

theorem subseg_drop (l : Str) (n : Nat) : SubSeg (l.drop n) l :=
  ⟨l.take n, [], by simp⟩

theorem subseg_trans {a b c : Str} (h1 : SubSeg a b) (h2 : SubSeg b c) : SubSeg a c := by
  obtain ⟨p1, s1, rfl⟩ := h1
  obtain ⟨p2, s2, rfl⟩ := h2
  exact ⟨p2 ++ p1, s1 ++ s2, by simp⟩

theorem subseg_length {a b : Str} (h : SubSeg a b) : a.length ≤ b.length := by
  obtain ⟨p, s, rfl⟩ := h
  simp
  omega

theorem subseg_trimLeft (l : Str) : SubSeg (trimLeft l) l :=
  ⟨l.takeWhile isWS, [], by simp [trimLeft, List.takeWhile_append_dropWhile]⟩

theorem subseg_trimRight (l : Str) : SubSeg (trimRight l) l := by
  refine ⟨[], (l.reverse.takeWhile isWS).reverse, ?_⟩
  have h := List.takeWhile_append_dropWhile (p := isWS) (l := l.reverse)
  calc l = l.reverse.reverse := (List.reverse_reverse l).symm
    _ = (l.reverse.takeWhile isWS ++ l.reverse.dropWhile isWS).reverse := by rw [h]
    _ = (l.reverse.dropWhile isWS).reverse ++ (l.reverse.takeWhile isWS).reverse := by
          rw [List.reverse_append]
    _ = trimRight l ++ (l.reverse.takeWhile isWS).reverse := by rw [trimRight]

theorem subseg_trim (l : Str) : SubSeg (trim l) l :=
  subseg_trans (subseg_trimRight (trimLeft l)) (subseg_trimLeft l)

theorem subseg_slice (l : Str) (a b : Nat) : SubSeg (jsSlice l a b) l :=
  subseg_trans (subseg_take (l.drop a) (b - a)) (subseg_drop l a)

/-! ### Snippet extraction -/

theorem snippetParts_ok (terms : List Str) (text : Str) (radius : Nat) :
    SubSeg (makeSnippetParts terms text radius).core text ∧
      (makeSnippetParts terms text radius).core.length ≤
        2 * radius + (terms.headD []).length := by
  simp only [makeSnippetParts]
  by_cases h1 : text.isEmpty
  · rw [if_pos h1]
    exact ⟨subseg_nil text, by simp⟩
  · rw [if_neg h1]
    by_cases h2 : terms.isEmpty
    · rw [if_pos h2]
      by_cases h3 : 2 * radius < text.length
      · rw [if_pos h3]
        refine ⟨subseg_take text (2 * radius), ?_⟩
        show (text.take (2 * radius)).length ≤ 2 * radius + (terms.headD []).length
        simp only [List.length_take]
        omega
      · rw [if_neg h3]
        refine ⟨subseg_refl text, ?_⟩
        show text.length ≤ 2 * radius + (terms.headD []).length
        omega
    · rw [if_neg h2]
      cases hfi : firstHitIdx (toLowerStr text) terms with
      | none =>
        by_cases h3 : 2 * radius < text.length
        · rw [if_pos h3]
          refine ⟨subseg_take text (2 * radius), ?_⟩
          show (text.take (2 * radius)).length ≤ 2 * radius + (terms.headD []).length
          simp only [List.length_take]
          omega
        · rw [if_neg h3]
          refine ⟨subseg_refl text, ?_⟩
          show text.length ≤ 2 * radius + (terms.headD []).length
          omega
      | some idx =>
        refine ⟨subseg_trans (subseg_trim _) (subseg_slice text _ _), ?_⟩
        show (trim (jsSlice text (idx - radius)
            (min text.length (idx + (terms.headD []).length + radius)))).length ≤
          2 * radius + (terms.headD []).length
        have hlen := subseg_length (subseg_trim
          (jsSlice text (idx - radius) (min text.length (idx + (terms.headD []).length + radius))))
        rw [show (jsSlice text (idx - radius)
            (min text.length (idx + (terms.headD []).length + radius))).length =
          min (min text.length (idx + (terms.headD []).length + radius) - (idx - radius))
            (text.length - (idx - radius)) from by
            simp [jsSlice, List.length_take, List.length_drop]] at hlen
        omega

/-- Claim C9 is refuted at radius 1: the found-term window is widened by the
length of the first query term, so the snippet core has 8 characters where
the claim allows at most 2 × 1 = 2. -/
theorem claim_C9_counterexample :
    (makeSnippetParts (chatTerms (s2l "abcdef")) (s2l "zzzabcdefzzz") 1).core.length = 8 ∧
      ¬ (makeSnippetParts (chatTerms (s2l "abcdef")) (s2l "zzzabcdefzzz") 1).core.length ≤ 2 * 1 := by
  decide

/-- Claim C9, amended: for every chunk text, query and radius, the snippet
core (the part between the ellipsis markers) of both the chat and the search
variant of makeSnippet is a contiguous substring of the chunk and never
exceeds 2 × radius plus the length of the first extracted query term. -/
theorem claim_C9_amended (text query : Str) (radius : Nat) :
    (SubSeg (makeSnippetParts (chatTerms query) text radius).core text ∧
      (makeSnippetParts (chatTerms query) text radius).core.length ≤
        2 * radius + ((chatTerms query).headD []).length) ∧
    (SubSeg (makeSnippetParts (queryTerms query) text radius).core text ∧
      (makeSnippetParts (queryTerms query) text radius).core.length ≤
        2 * radius + ((queryTerms query).headD []).length) :=
  ⟨snippetParts_ok _ text radius, snippetParts_ok _ text radius⟩

/-! ### Confidence gate -/

/-- Claim C5: whenever the index returns no matches, or the first match's
score (0 when absent) is below the 0.15 threshold, the chat endpoint answers
with the fixed refusal text, an empty source list, and never invokes the
completion provider — for every provider, question, history and match
list (and hence regardless of `k` and filters, which only shape the match
list handed back by the index). -/
theorem claim_C5_confidence_gate (gen : List Msg → Str) (question : Str)
    (history : List Msg) (ms : List QMatch)
    (h : ms = [] ∨ (ms.head?.bind (·.score)).getD 0 < CONFIDENCE_THRESHOLD) :
    chatRespond gen question history ms = ⟨refusalText, [], false⟩ := by
  have hc : (ms.isEmpty ||
      decide ((ms.head?.bind (·.score)).getD 0 < CONFIDENCE_THRESHOLD)) = true := by
    rcases h with h | h
    · subst h
      rfl
    · simp [h]
  unfold chatRespond
  simp [hc]

theorem claim_C5_confidence_gate_witness :
    chatRespond (fun _ => []) [] [] [] = ⟨refusalText, [], false⟩ :=
  claim_C5_confidence_gate (fun _ => []) [] [] [] (Or.inl rfl)

/-! ### Source-count bound -/

theorem packContextGo_length (question : Str) (b : Nat) :
    ∀ ms idx ctx srcs, ((packContextGo question b ms idx ctx srcs).1).length ≤
      srcs.length + ms.length := by
  intro ms
  induction ms with
  | nil => intro idx ctx srcs; simp [packContextGo]
  | cons m rest ih =>
    intro idx ctx srcs
    simp only [packContextGo]
    split_ifs with hc hb
    · exact Nat.le_trans (ih idx ctx srcs) (by simp only [List.length_cons]; omega)
    · simp only [List.length_cons]
      omega
    · refine Nat.le_trans (ih _ _ _) ?_
      simp only [List.length_append, List.length_cons, List.length_nil]
      omega

/-- Claim C10: the number of sources a chat request returns is bounded by
the number of matches the index hands back (itself bounded by the requested
`topK = max(k, 8)`) and the context budget — never by `k`: the loop that
builds sources has no `k` in it, and with `k = 1` (so `topK = 8`) and three
short high-scoring matches, three sources come back, strictly more than
`k`. -/
theorem claim_C10_overfetch :
    (∀ (ms : List QMatch) (question : Str) (b : Nat),
        ((packContext ms question b).1).length ≤ ms.length) ∧
    chatTopK 1 = 8 ∧
    (∀ gen : List Msg → Str,
        1 < ((chatRespond gen (s2l "a") [] [shortMatch 0, shortMatch 1, shortMatch 2]).sources).length) := by
  refine ⟨fun ms q b => ?_, rfl, fun gen => ?_⟩
  · simpa [packContext] using packContextGo_length q b ms 1 [] []
  · have hng : (([shortMatch 0, shortMatch 1, shortMatch 2].isEmpty ||
        decide (([shortMatch 0, shortMatch 1, shortMatch 2].head?.bind (·.score)).getD 0 <
          CONFIDENCE_THRESHOLD))) = false := by
      have : ¬ ((1 : ℚ) < CONFIDENCE_THRESHOLD) := by norm_num [CONFIDENCE_THRESHOLD]
      simp [shortMatch, this]
    unfold chatRespond
    simp only [hng, Bool.false_eq_true, if_false]
    have hlen : ((packContext [shortMatch 0, shortMatch 1, shortMatch 2] (s2l "a") 2400).1).length = 3 := by
      decide
    show 1 < ((packContext [shortMatch 0, shortMatch 1, shortMatch 2] (s2l "a") 2400).1).length
    omega

/-! ### Chunker termination (claim C2) -/

/-- Claim C2 is a code bug: on ten consecutive non-whitespace characters
with `maxTokens = overlapTokens = 1` (so `overlapChars = maxChars = 4`) every
iteration of the while loop emits the same 4-character piece and recomputes
`start = max(0, 0 + 4 - 4) = 0` — the scan position never advances — so the
JS loop runs forever: the step function maps start 0 back to start 0, the
fuelled loop returns `none` for every fuel, and `chunkText` diverges, against
the claimed strict progress and termination. -/
theorem claim_C2_nontermination :
    (∀ idx acc, chunkStepWith chooseCut 4 4 (s2l "xxxxxxxxxx") 0 idx acc
        = Sum.inl (0, idx + 1, acc ++ [⟨idx, s2l "xxxx"⟩])) ∧
    (∀ fuel idx acc, chunkLoopWith chooseCut 4 4 (s2l "xxxxxxxxxx") fuel 0 idx acc = none) ∧
    chunkText (s2l "xxxxxxxxxx") 1 1 = none := by
  have hstep : ∀ idx acc, chunkStepWith chooseCut 4 4 (s2l "xxxxxxxxxx") 0 idx acc
      = Sum.inl (0, idx + 1, acc ++ [⟨idx, s2l "xxxx"⟩]) := fun idx acc => rfl
  refine ⟨hstep, ?_, by decide⟩
  intro fuel
  induction fuel with
  | zero => intro idx acc; rfl
  | succ fuel ih =>
    intro idx acc
    rw [chunkLoopWith, if_neg (by decide : ¬((s2l "xxxxxxxxxx").length ≤ 0)), hstep idx acc]
    exact ih _ _

/-! ### The cut-point cascade (claim C6) -/

/-- Claim C6 is refuted on a 24-character input with `maxTokens = 3`
(window 12): in the second window the last paragraph break sits at index 8,
which is at 66% of the 12-character window (so the claim's cascade cuts
there), but the code compares 8 against 60% of the absolute end offset 24
and rejects it, producing a different chunk list. -/
theorem claim_C6_counterexample :
    chunkText cexC6 3 0 ≠ chunkTextWith chooseCutClaim cexC6 3 0 := by decide

theorem chooseCut_eq_spec (endPos : Nat) (slice : Str) :
    chooseCut endPos slice = chooseCutSpec endPos slice := by
  have hm5 : ((-5 : Int) < 3 * (endPos : Int)) := by omega
  unfold chooseCut chooseCutSpec
  cases hp : lastIdxOf (s2l "\n\n") slice with
  | none =>
    cases hs : lastIdxOf (s2l ". ") slice with
    | none =>
      cases hw : lastIdxOf (s2l " ") slice with
      | none => simp
      | some w =>
        simp [Option.filter, hm5, HOrElse.hOrElse, OrElse.orElse, Option.orElse]
    | some q =>
      by_cases hq : 3 * endPos ≤ 5 * q
      · have h2 : ¬ (5 * (q : Int) < 3 * (endPos : Int)) := by omega
        simp [Option.filter, hm5, hq, h2, HOrElse.hOrElse, OrElse.orElse, Option.orElse]
      · have h2 : (5 * (q : Int) < 3 * (endPos : Int)) := by omega
        have hq2 : ¬ (3 * endPos ≤ 5 * q) := hq
        cases hw : lastIdxOf (s2l " ") slice with
        | none =>
          simp [Option.filter, hm5, hq2, h2, HOrElse.hOrElse, OrElse.orElse, Option.orElse]
        | some w =>
          simp [Option.filter, hm5, hq2, h2, HOrElse.hOrElse, OrElse.orElse, Option.orElse]
  | some p =>
    by_cases hpc : 3 * endPos ≤ 5 * p
    · have h2 : ¬ (5 * (p : Int) < 3 * (endPos : Int)) := by omega
      simp [Option.filter, hpc, h2, HOrElse.hOrElse, OrElse.orElse, Option.orElse]
    · have h2 : (5 * (p : Int) < 3 * (endPos : Int)) := by omega
      have hpc2 : ¬ (3 * endPos ≤ 5 * p) := hpc
      cases hs : lastIdxOf (s2l ". ") slice with
      | none =>
        cases hw : lastIdxOf (s2l " ") slice with
        | none =>
          simp [Option.filter, hm5, hpc2, h2, HOrElse.hOrElse, OrElse.orElse, Option.orElse]
        | some w =>
          simp [Option.filter, hm5, hpc2, h2, HOrElse.hOrElse, OrElse.orElse, Option.orElse]
      | some q =>
        by_cases hq : 3 * endPos ≤ 5 * q
        · have h3 : ¬ (5 * (q : Int) < 3 * (endPos : Int)) := by omega
          simp [Option.filter, hpc2, hq, h2, h3, HOrElse.hOrElse, OrElse.orElse, Option.orElse]
        · have h3 : (5 * (q : Int) < 3 * (endPos : Int)) := by omega
          have hq2 : ¬ (3 * endPos ≤ 5 * q) := hq
          cases hw : lastIdxOf (s2l " ") slice with
          | none =>
            simp [Option.filter, hm5, hpc2, hq2, h2, h3, HOrElse.hOrElse, OrElse.orElse,
              Option.orElse]
          | some w =>
            simp [Option.filter, hm5, hpc2, hq2, h2, h3, HOrElse.hOrElse, OrElse.orElse,
              Option.orElse]

/-- Claim C6, amended: in every chunker iteration the cut point is chosen by
the cascade with the 60% threshold measured against the absolute end offset
`min (start + maxChars) length` (not the window length), and with the word
boundary used only when its index is positive; concretely, `chunkText`
coincides with the chunker that uses the amended cascade on every input. -/
theorem claim_C6_amended (text : Str) (mt ot : Nat) :
    chunkText text mt ot = chunkTextWith chooseCutSpec text mt ot := by
  have h : chooseCut = chooseCutSpec :=
    funext fun e => funext fun s => chooseCut_eq_spec e s
  rw [chunkText, h]

/-! ### Maintenance sweep (claim C8) -/

theorem applyPatch_id (d : DocRecord) (p : DocPatch) : (applyPatch d p).id = d.id := rfl

theorem nodup_id_inj {docs : List DocRecord} (h : (docs.map (·.id)).Nodup)
    {a b : DocRecord} (ha : a ∈ docs) (hb : b ∈ docs) (hid : a.id = b.id) : a = b :=
  List.inj_on_of_nodup_map h ha hb hid

theorem foldl_storeUpdate_map (p : DocPatch) :
    ∀ (ts l : List DocRecord),
      ts.foldl (fun st t => storeUpdate st t.id p) l
        = l.map (fun d => ts.foldl (fun x t => if x.id = t.id then applyPatch x p else x) d) := by
  intro ts
  induction ts with
  | nil => intro l; simp [List.foldl_nil]
  | cons t ts ih =>
    intro l
    rw [List.foldl_cons]
    rw [ih (storeUpdate l t.id p)]
    unfold storeUpdate
    rw [List.map_map]
    rfl

theorem foldl_patch_nomatch (p : DocPatch) :
    ∀ (ts : List DocRecord) (x : DocRecord), (∀ t ∈ ts, x.id ≠ t.id) →
      ts.foldl (fun x t => if x.id = t.id then applyPatch x p else x) x = x := by
  intro ts
  induction ts with
  | nil => intro x _; rfl
  | cons t ts ih =>
    intro x hx
    rw [List.foldl_cons, if_neg (hx t (by simp))]
    exact ih x fun u hu => hx u (by simp [hu])

/-- Claim C8 is refuted: a document stuck in status `embedding` for far more
than 2 minutes is NOT touched by the sweep — the selection predicate only
admits `extracting`. -/
theorem claim_C8_counterexample :
    (sweepRoute 10000000 [embStuckDoc]).1 = [embStuckDoc] ∧
      embStuckDoc.processingStatus = PStatus.embedding ∧
      embStuckDoc.uploadDate < 10000000 - 2 * 60 * 1000 := by decide

/-- Claim C8, amended: when document ids are unique, the sweep
force-transitions to `error` (with the synthetic message) exactly those
documents whose status is `extracting` and whose uploadDate is more than 2
minutes before the sweep time; every other document — in particular every
`embedding` or already-`error` document — is returned unchanged, so
re-running the sweep is a no-op on its own output. -/
theorem claim_C8_amended (now : Int) (docs : List DocRecord)
    (h : (docs.map (·.id)).Nodup) :
    (sweepRoute now docs).1
      = docs.map (fun d => if stuckFilter now d then applyPatch d stuckPatch else d) := by
  show ((docs.filter (stuckFilter now)).foldl
      (fun st d => storeUpdate st d.id stuckPatch) docs) = _
  rw [foldl_storeUpdate_map]
  apply List.map_congr_left
  intro d hd
  have hstuckNodup : ((docs.filter (stuckFilter now)).map (·.id)).Nodup :=
    List.Nodup.sublist (List.Sublist.map _ (List.filter_sublist docs)) h
  by_cases hf : stuckFilter now d
  · have hdstuck : d ∈ docs.filter (stuckFilter now) := List.mem_filter.2 ⟨hd, hf⟩
    obtain ⟨l1, l2, hsplit⟩ := List.append_of_mem hdstuck
    rw [hsplit]
    have h2 : ((l1 ++ d :: l2).map (·.id)).Nodup := by rw [← hsplit]; exact hstuckNodup
    rw [List.map_append, List.nodup_append] at h2
    obtain ⟨-, h2r, h2disj⟩ := h2
    have hl1 : ∀ t ∈ l1, d.id ≠ t.id := by
      intro t ht heq
      exact h2disj (List.mem_map_of_mem (·.id) ht) (by simp [heq])
    have hl2 : ∀ t ∈ l2, d.id ≠ t.id := by
      intro t ht heq
      rw [List.map_cons, List.nodup_cons] at h2r
      exact h2r.1 (heq ▸ List.mem_map_of_mem (·.id) ht)
    rw [List.foldl_append, foldl_patch_nomatch stuckPatch l1 d hl1, List.foldl_cons,
      if_pos rfl, foldl_patch_nomatch stuckPatch l2 (applyPatch d stuckPatch)
        (by intro t ht; rw [applyPatch_id]; exact hl2 t ht), if_pos hf]
  · rw [if_neg hf]
    apply foldl_patch_nomatch
    intro t ht heq
    have := List.mem_filter.1 ht
    have : t = d := nodup_id_inj h this.1 hd (heq.symm)
    subst this
    exact hf (List.mem_filter.1 ht).2

theorem claim_C8_amended_witness :
    (sweepRoute 10000000 [extStuckDoc, errSweepDoc]).1
      = [applyPatch extStuckDoc stuckPatch, errSweepDoc] :=
  (claim_C8_amended 10000000 [extStuckDoc, errSweepDoc] (by decide)).trans (by decide)

/-! ### Terminal statuses under the embedding route (claim C1) -/

theorem mem_storeUpdate_of_ne {docs : List DocRecord} {id : Str} {p : DocPatch}
    {d : DocRecord} (hd : d ∈ docs) (hne : d.id ≠ id) : d ∈ storeUpdate docs id p := by
  unfold storeUpdate
  exact List.mem_map.2 ⟨d, hd, by rw [if_neg hne]⟩

theorem storeUpdate_length (docs : List DocRecord) (id : Str) (p : DocPatch) :
    (storeUpdate docs id p).length = docs.length := by
  unfold storeUpdate
  exact List.length_map docs _

theorem embedRouteGo_preserve {E : Type} (embed : List Str → Option (List E)) (bs : Nat)
    (d : DocRecord) :
    ∀ (ts st : List DocRecord) calls res,
      (∀ t ∈ ts, t.id ≠ d.id) → embedRouteGo embed bs ts st calls = some res →
      d ∈ st → d ∈ res.1 ∧ res.1.length = st.length := by
  intro ts
  induction ts with
  | nil =>
    intro st calls res _ h hd
    cases h
    exact ⟨hd, rfl⟩
  | cons t ts ih =>
    intro st calls res hne h hd
    rw [embedRouteGo] at h
    cases hpd : processDoc embed bs t with
    | none => rw [hpd] at h; cases h
    | some r =>
      rw [hpd] at h
      have hdup : d ∈ storeUpdate st t.id r.patch :=
        mem_storeUpdate_of_ne hd (fun he => hne t (by simp) (he ▸ rfl))
      have := ih (storeUpdate st t.id r.patch) (calls ++ r.upsertCalls) res
        (fun u hu => hne u (by simp [hu])) h hdup
      exact ⟨this.1, this.2.trans (storeUpdate_length st t.id r.patch)⟩

/-- Claim C1 is refuted: invoking the embedding pipeline by id does not
check the document's status, so a record in terminal status `error` that
still has extractable content is re-processed and mutated to `completed`
(with a chunkCount) by a perfectly normal non-maintenance call. -/
theorem claim_C1_counterexample :
    errDoc.processingStatus = PStatus.error ∧
      embedRoute emOK (some (s2l "e1")) 64 [errDoc]
        = some ([errDocAfter],
            [[⟨s2l "e1-0", 0, s2l "e1", s2l "g.txt", s2l "text/plain", 0, 0, s2l "hello"⟩]]) ∧
      errDocAfter ≠ errDoc := by decide

/-- Claim C1, amended: only the sweep form of the embedding call (no
documentId) is guaranteed not to touch completed/error records — it selects
exactly the documents in status `embedding`, so (with unique ids) every
record in any other status is returned unchanged and the store keeps its
length. The by-id form processes the addressed record regardless of its
status and can mutate a completed or error record; and the stuck-document
maintenance sweep transitions only `extracting` documents (see C8). -/
theorem claim_C1_amended {E : Type} (embed : List Str → Option (List E)) (bs : Nat)
    (docs docs2 : List DocRecord) (calls : List (List (VectorRecord E))) (d : DocRecord)
    (hnd : (docs.map (·.id)).Nodup) (hd : d ∈ docs)
    (hst : d.processingStatus ≠ PStatus.embedding)
    (hrun : embedRoute embed none bs docs = some (docs2, calls)) :
    d ∈ docs2 ∧ docs2.length = docs.length := by
  unfold embedRoute at hrun
  have hne : ∀ t ∈ docs.filter (fun x => x.processingStatus = PStatus.embedding),
      t.id ≠ d.id := by
    intro t ht heq
    obtain ⟨htd, htf⟩ := List.mem_filter.1 ht
    have : t = d := nodup_id_inj hnd htd hd heq
    subst this
    exact hst (by simpa using htf)
  exact embedRouteGo_preserve embed bs d _ docs [] (docs2, calls) hne hrun hd

theorem claim_C1_amended_witness :
    errDoc ∈ ([errDoc] : List DocRecord) ∧ ([errDoc] : List DocRecord).length = [errDoc].length :=
  claim_C1_amended emOK 64 [errDoc] [errDoc] [] errDoc (by decide) (by decide)
    (by decide) (by decide)

/-! ### chunkCount and the lifecycle (claim C7) -/

theorem processDoc_patch_shape {E : Type} {embed : List Str → Option (List E)} {bs : Nat}
    {doc : DocRecord} {res : ProcResult E} (h : processDoc embed bs doc = some res) :
    (res.patch.processingStatus = some PStatus.error ∧ res.patch.chunkCount = none) ∨
      (res.patch.processingStatus = some PStatus.completed ∧ res.patch.chunkCount.isSome) := by
  unfold processDoc at h
  split_ifs at h with hblank
  · cases h
    left
    exact ⟨rfl, rfl⟩
  · split at h
    · cases h
    · split_ifs at h with hempty
      · cases h
        left
        exact ⟨rfl, rfl⟩
      · split at h
        · cases h
          left
          exact ⟨rfl, rfl⟩
        · cases h
          right
          exact ⟨rfl, rfl⟩

theorem inv_applyPatch {d : DocRecord} {p : DocPatch}
    (hp1 : p.processingStatus ≠ none)
    (hp2 : p.processingStatus = some PStatus.completed → p.chunkCount.isSome) :
    (applyPatch d p).processingStatus = PStatus.completed → (applyPatch d p).chunkCount.isSome := by
  intro hc
  cases hps : p.processingStatus with
  | none => exact absurd hps hp1
  | some st =>
    have hst : st = PStatus.completed := by
      unfold applyPatch at hc
      simp only [hps, Option.getD_some] at hc
      exact hc
    subst hst
    have := hp2 hps
    cases hcc : p.chunkCount with
    | none => rw [hcc] at this; cases this
    | some n => simp [applyPatch, hcc]

theorem inv_storeUpdate {docs : List DocRecord} {id : Str} {p : DocPatch}
    (hinv : ∀ d ∈ docs, d.processingStatus = PStatus.completed → d.chunkCount.isSome)
    (hp1 : p.processingStatus ≠ none)
    (hp2 : p.processingStatus = some PStatus.completed → p.chunkCount.isSome) :
    ∀ d ∈ storeUpdate docs id p, d.processingStatus = PStatus.completed → d.chunkCount.isSome := by
  intro d hd
  unfold storeUpdate at hd
  obtain ⟨x, hx, hxd⟩ := List.mem_map.1 hd
  by_cases hxi : x.id = id
  · rw [if_pos hxi] at hxd
    subst hxd
    exact inv_applyPatch hp1 hp2
  · rw [if_neg hxi] at hxd
    subst hxd
    exact hinv x hx

theorem embedRouteGo_inv {E : Type} (embed : List Str → Option (List E)) (bs : Nat) :
    ∀ (ts st : List DocRecord) calls res,
      (∀ d ∈ st, d.processingStatus = PStatus.completed → d.chunkCount.isSome) →
      embedRouteGo embed bs ts st calls = some res →
      ∀ d ∈ res.1, d.processingStatus = PStatus.completed → d.chunkCount.isSome := by
  intro ts
  induction ts with
  | nil =>
    intro st calls res hinv h
    cases h
    exact hinv
  | cons t ts ih =>
    intro st calls res hinv h
    rw [embedRouteGo] at h
    cases hpd : processDoc embed bs t with
    | none => rw [hpd] at h; cases h
    | some r =>
      rw [hpd] at h
      refine ih _ _ res ?_ h
      rcases processDoc_patch_shape hpd with ⟨he, -⟩ | ⟨hc, hcc⟩
      · exact inv_storeUpdate hinv (by rw [he]; simp) (by rw [he]; intro hx; cases hx)
      · exact inv_storeUpdate hinv (by rw [hc]; simp) (fun _ => hcc)

theorem sweepFold_inv (p : DocPatch)
    (hp1 : p.processingStatus ≠ none)
    (hp2 : p.processingStatus = some PStatus.completed → p.chunkCount.isSome) :
    ∀ (ts st : List DocRecord),
      (∀ d ∈ st, d.processingStatus = PStatus.completed → d.chunkCount.isSome) →
      ∀ d ∈ ts.foldl (fun st t => storeUpdate st t.id p) st,
        d.processingStatus = PStatus.completed → d.chunkCount.isSome := by
  intro ts
  induction ts with
  | nil => intro st hinv; exact hinv
  | cons t ts ih =>
    intro st hinv
    rw [List.foldl_cons]
    exact ih _ (inv_storeUpdate hinv hp1 hp2)

/-- Claim C7, amended (the direction that survives): in every reachable
store state, a record in status `completed` has a chunkCount. The converse
is false (see the counterexample): the error transition merges its patch
over the record and never clears chunkCount, so an `error` record that
previously completed keeps its stale chunkCount. -/
theorem claim_C7_amended :
    ∀ (s : List DocRecord), Reachable s →
      ∀ d ∈ s, d.processingStatus = PStatus.completed → d.chunkCount.isSome := by
  intro s hs
  induction hs with
  | init => intro d hd; cases hd
  | upload id filename fileType fileSize now outcome hprev ih =>
    unfold uploadOne
    cases outcome with
    | some text =>
      refine inv_storeUpdate ?_ (by simp) (by intro hx; cases hx)
      intro d hd
      rcases List.mem_append.1 hd with hd | hd
      · exact ih d hd
      · simp only [List.mem_singleton] at hd
        subst hd
        intro hc
        cases hc
    | none =>
      refine inv_storeUpdate ?_ (by simp) (by intro hx; cases hx)
      intro d hd
      rcases List.mem_append.1 hd with hd | hd
      · exact ih d hd
      · simp only [List.mem_singleton] at hd
        subst hd
        intro hc
        cases hc
  | embedRun E embed oid bs calls hprev heq ih =>
    exact fun d hd => embedRouteGo_inv embed bs _ _ [] _ ih heq d hd
  | sweep now hprev ih =>
    show ∀ d ∈ (sweepRoute now _).1, _
    unfold sweepRoute
    exact sweepFold_inv stuckPatch (by simp [stuckPatch]) (by intro hx; cases hx) _ _ ih
  | del id hprev ih =>
    intro d hd
    exact ih d (List.mem_of_mem_filter hd)

theorem reach_exS1 : Reachable exS1 :=
  Reachable.upload (s2l "d1") (s2l "f.txt") (s2l "text/plain") 5 0 (some (s2l "hello"))
    Reachable.init

theorem reach_exDocDone : Reachable [exDocDone] :=
  Reachable.embedRun Nat emOK (some (s2l "d1")) 64 [[exVec]] reach_exS1
    (show embedRoute emOK (some (s2l "d1")) 64 exS1 = some ([exDocDone], [[exVec]]) by decide)

theorem reach_exDocErr : Reachable [exDocErr] :=
  Reachable.embedRun Nat emFail (some (s2l "d1")) 64 [] reach_exDocDone
    (show embedRoute emFail (some (s2l "d1")) 64 [exDocDone] = some ([exDocErr], []) by decide)

/-- Claim C7 is refuted: upload a file, let its embedding run complete
(status `completed`, chunkCount 1), then re-invoke the embedding route by id
with a provider that throws — the store.update merge keeps the stale
chunkCount, leaving a reachable record with status `error` AND a present
chunkCount. -/
theorem claim_C7_counterexample :
    Reachable [exDocErr] ∧ exDocErr.processingStatus = PStatus.error ∧
      exDocErr.chunkCount = some 1 :=
  ⟨reach_exDocErr, rfl, rfl⟩

theorem claim_C7_amended_witness : exDocDone.chunkCount.isSome :=
  claim_C7_amended [exDocDone] reach_exDocDone exDocDone (by simp) rfl

/-! ### Idempotent re-indexing (claim C4) -/

theorem embedBatchesGo_fst {E : Type} {embed : List Str → Option (List E)}
    (hlp : LenPres embed) (bs : Nat) :
    ∀ (fuel : Nat) (chunks : List TextChunk) (pairs : List (TextChunk × E)),
      embedBatchesGo embed bs fuel chunks = some pairs → pairs.map Prod.fst = chunks := by
  intro fuel
  induction fuel with
  | zero =>
    intro chunks pairs h
    cases chunks with
    | nil => cases h; rfl
    | cons c cs => cases h
  | succ fuel ih =>
    intro chunks pairs h
    cases chunks with
    | nil => cases h; rfl
    | cons c cs =>
      by_cases hbs : bs = 0
      · simp [embedBatchesGo, hbs] at h
      · simp only [embedBatchesGo, if_neg hbs] at h
        split at h
        · cases h
        · rename_i embs hemb
          have hlen : embs.length = ((c :: cs).take bs).length := by
            simpa using hlp _ _ hemb
          rw [if_neg (by omega)] at h
          split at h
          · cases h
          · rename_i rest hrec
            injection h with h2
            subst h2
            rw [List.map_append, List.map_fst_zip _ _ (by omega), ih _ _ hrec,
              List.take_append_drop]

theorem embedBatches_fst {E : Type} {embed : List Str → Option (List E)}
    {bs : Nat} {chunks : List TextChunk} {pairs : List (TextChunk × E)}
    (hlp : LenPres embed) (h : embedBatches embed bs chunks = some pairs) :
    pairs.map Prod.fst = chunks :=
  embedBatchesGo_fst hlp bs chunks.length chunks pairs h

theorem chunkStepWith_shape (cutFn : Nat → Str → Nat) (mc ov : Nat) (clean : Str)
    (start idx : Nat) (acc : List TextChunk) :
    chunkStepWith cutFn mc ov clean start idx acc = Sum.inr acc ∨
    (∃ piece : Str, piece.isEmpty = false ∧
        chunkStepWith cutFn mc ov clean start idx acc = Sum.inr (acc ++ [⟨idx, piece⟩])) ∨
    (∃ s2, chunkStepWith cutFn mc ov clean start idx acc = Sum.inl (s2, idx, acc)) ∨
    (∃ (s2 : Nat) (piece : Str), piece.isEmpty = false ∧
        chunkStepWith cutFn mc ov clean start idx acc
          = Sum.inl (s2, idx + 1, acc ++ [⟨idx, piece⟩])) := by
  by_cases hpe : (trim ((jsSlice clean start (min (start + mc) clean.length)).take
      (cutFn (min (start + mc) clean.length)
        (jsSlice clean start (min (start + mc) clean.length))))).isEmpty
  · by_cases hend : clean.length ≤ min (start + mc) clean.length
    · left
      simp [chunkStepWith, hend, hpe]
    · right; right; left
      refine ⟨start + (trim ((jsSlice clean start (min (start + mc) clean.length)).take
        (cutFn (min (start + mc) clean.length)
          (jsSlice clean start (min (start + mc) clean.length))))).length - ov, ?_⟩
      simp [chunkStepWith, hend, hpe]
  · by_cases hend : clean.length ≤ min (start + mc) clean.length
    · right; left
      exact ⟨_, by simpa using hpe, by simp [chunkStepWith, hend, hpe]⟩
    · right; right; right
      refine ⟨start + (trim ((jsSlice clean start (min (start + mc) clean.length)).take
        (cutFn (min (start + mc) clean.length)
          (jsSlice clean start (min (start + mc) clean.length))))).length - ov,
        trim ((jsSlice clean start (min (start + mc) clean.length)).take
          (cutFn (min (start + mc) clean.length)
            (jsSlice clean start (min (start + mc) clean.length)))),
        by simpa using hpe, ?_⟩
      simp [chunkStepWith, hend, hpe]

theorem chunkLoop_chain (cutFn : Nat → Str → Nat) (mc ov : Nat) (clean : Str) :
    ∀ (fuel start idx : Nat) (acc out : List TextChunk),
      List.Pairwise (fun a b => a.chunkIndex < b.chunkIndex) acc →
      (∀ c ∈ acc, c.chunkIndex < idx) →
      chunkLoopWith cutFn mc ov clean fuel start idx acc = some out →
      List.Pairwise (fun a b => a.chunkIndex < b.chunkIndex) out := by
  intro fuel
  induction fuel with
  | zero => intro start idx acc out _ _ h; cases h
  | succ fuel ih =>
    intro start idx acc out hpw hbd h
    rw [chunkLoopWith] at h
    split_ifs at h with hend
    · cases h
      exact hpw
    · rcases chunkStepWith_shape cutFn mc ov clean start idx acc with
        hc | ⟨piece, hpe, hc⟩ | ⟨s2, hc⟩ | ⟨s2, piece, hpe, hc⟩
      · rw [hc] at h
        cases h
        exact hpw
      · rw [hc] at h
        cases h
        refine List.pairwise_append.2 ⟨hpw, List.pairwise_singleton _ _, ?_⟩
        intro a ha b hb
        rw [List.mem_singleton] at hb
        subst hb
        exact hbd a ha
      · rw [hc] at h
        exact ih s2 idx acc out hpw hbd h
      · rw [hc] at h
        refine ih s2 (idx + 1) (acc ++ [⟨idx, piece⟩]) out ?_ ?_ h
        · refine List.pairwise_append.2 ⟨hpw, List.pairwise_singleton _ _, ?_⟩
          intro a ha b hb
          rw [List.mem_singleton] at hb
          subst hb
          exact hbd a ha
        · intro c hc2
          rcases List.mem_append.1 hc2 with hc2 | hc2
          · exact Nat.lt_succ_of_lt (hbd c hc2)
          · rw [List.mem_singleton] at hc2
            subst hc2
            exact Nat.lt_succ_self idx

theorem chunkText_chain {text : Str} {mt ot : Nat} {out : List TextChunk}
    (h : chunkText text mt ot = some out) :
    List.Pairwise (fun a b => a.chunkIndex < b.chunkIndex) out := by
  unfold chunkText chunkTextWith at h
  split_ifs at h with he
  · cases h
    exact List.Pairwise.nil
  · exact chunkLoop_chain chooseCut (mt * APPROX_CHARS_PER_TOKEN)
      (ot * APPROX_CHARS_PER_TOKEN) (cleanText text) ((cleanText text).length + 1) 0 0 [] out
      List.Pairwise.nil (by simp) h

theorem chunksOf_chain (doc : DocRecord) :
    List.Pairwise (fun a b => a.chunkIndex < b.chunkIndex) (chunksOf doc) := by
  unfold chunksOf
  cases h : chunkText (doc.extractedContent.getD []) 1000 100 with
  | none => exact List.Pairwise.nil
  | some chunks => simpa using chunkText_chain h

theorem processDoc_ok {E : Type} {embed : List Str → Option (List E)} {bs : Nat}
    {doc : DocRecord} {res : ProcResult E} (hlp : LenPres embed)
    (h : processDoc embed bs doc = some res) (hok : res.ok = true) :
    vecIds res = (chunksOf doc).map (fun c => vectorId doc.id c.chunkIndex) ∧
      res.patch.chunkCount = some (chunksOf doc).length := by
  unfold processDoc at h
  split_ifs at h with hblank
  · cases h
    simp at hok
  · split at h
    · cases h
    · rename_i chunks heq
      split_ifs at h with hempty
      · cases h
        simp at hok
      · split at h
        · cases h
          simp at hok
        · rename_i pairs hbat
          cases h
          have hfst : pairs.map Prod.fst = chunks := embedBatches_fst hlp hbat
          have hco : chunksOf doc = chunks := by
            unfold chunksOf
            rw [heq]
            rfl
          refine ⟨?_, by rw [hco]⟩
          rw [hco, ← hfst]
          simp only [vecIds, List.flatten_cons, List.flatten_nil, List.append_nil,
            List.map_map]
          rfl

/-- Claim C4: running the embedding pipeline twice on a document with
unchanged extractedContent (with any batch sizes and any contract-abiding
providers, both runs succeeding) yields exactly the same list of vector ids
— each the deterministic string `docId-chunkIndex` — those ids are pairwise
distinct (so upserting by id overwrites and never duplicates), and the
chunkCount recorded by the success patch equals the chunk count of the
second run. -/
theorem claim_C4_idempotence {E1 E2 : Type} (e1 : List Str → Option (List E1))
    (e2 : List Str → Option (List E2)) (bs1 bs2 : Nat) (doc : DocRecord)
    (res1 : ProcResult E1) (res2 : ProcResult E2)
    (hl1 : LenPres e1) (hl2 : LenPres e2)
    (h1 : processDoc e1 bs1 doc = some res1) (h2 : processDoc e2 bs2 doc = some res2)
    (hok1 : res1.ok = true) (hok2 : res2.ok = true) :
    vecIds res1 = vecIds res2 ∧
      vecIds res2 = (chunksOf doc).map (fun c => vectorId doc.id c.chunkIndex) ∧
      (vecIds res2).Nodup ∧
      res2.patch.chunkCount = some (chunksOf doc).length := by
  obtain ⟨hv1, hc1⟩ := processDoc_ok hl1 h1 hok1
  obtain ⟨hv2, hc2⟩ := processDoc_ok hl2 h2 hok2
  refine ⟨hv1.trans hv2.symm, hv2, ?_, hc2⟩
  rw [hv2]
  exact List.pairwise_map.2 ((chunksOf_chain doc).imp
    (fun hlt heq => absurd (vectorId_inj heq) (Nat.ne_of_lt hlt)))

theorem lenPres_emOK : LenPres emOK := by
  intro inp out h
  have h2 : inp.map (fun _ => 0) = out := Option.some.inj h
  rw [← h2, List.length_map]

theorem lenPres_emOne : LenPres emOne := by
  intro inp out h
  have h2 : inp.map (fun _ => 1) = out := Option.some.inj h
  rw [← h2, List.length_map]

theorem claim_C4_idempotence_witness :
    vecIds exRes1 = vecIds exRes2 ∧
      vecIds exRes2 = (chunksOf exDocDone).map (fun c => vectorId exDocDone.id c.chunkIndex) ∧
      (vecIds exRes2).Nodup ∧
      exRes2.patch.chunkCount = some (chunksOf exDocDone).length :=
  claim_C4_idempotence emOK emOne 64 3 exDocDone exRes1 exRes2 lenPres_emOK lenPres_emOne
    (by decide) (by decide) rfl rfl

/-! ### Batch upserts (claim C3) -/

/-- Claim C3, amended: the pipeline accumulates every batch's vectors and
performs at most ONE upsert per document, after all batches completed; on
any failure (including a failure in a later batch) the document is patched
to `error` and NO upsert call has been made, so nothing of that run is
indexed. -/
theorem claim_C3_amended {E : Type} (embed : List Str → Option (List E)) (bs : Nat)
    (doc : DocRecord) (res : ProcResult E) (h : processDoc embed bs doc = some res) :
    res.upsertCalls.length ≤ 1 ∧
      (res.ok = false → res.upsertCalls = []) ∧
      (res.ok = true → ∃ vs, res.upsertCalls = [vs]) := by
  unfold processDoc at h
  split_ifs at h with hblank
  · cases h
    exact ⟨Nat.zero_le 1, fun _ => rfl, fun hx => by cases hx⟩
  · split at h
    · cases h
    · rename_i chunks heq
      split_ifs at h with hempty
      · cases h
        exact ⟨Nat.zero_le 1, fun _ => rfl, fun hx => by cases hx⟩
      · split at h
        · cases h
          exact ⟨Nat.zero_le 1, fun _ => rfl, fun hx => by cases hx⟩
        · cases h
          refine ⟨Nat.le_refl 1, ⟨fun hx => ?_, fun _ => ⟨_, rfl⟩⟩⟩
          cases hx

theorem claim_C3_amended_witness :
    exRes1.upsertCalls.length ≤ 1 ∧
      (exRes1.ok = false → exRes1.upsertCalls = []) ∧
      (exRes1.ok = true → ∃ vs, exRes1.upsertCalls = [vs]) :=
  claim_C3_amended emOK 64 exDocDone exRes1 (by decide)

theorem occFrom_cons_replicate {c : Char} (hc : c ≠ 'x') (pat : Str) :
    ∀ (n i : Nat), occFrom (c :: pat) i (List.replicate n 'x') = [] := by
  intro n
  induction n with
  | zero => intro i; simp [occFrom]
  | succ n ih =>
    intro i
    rw [List.replicate_succ]
    simp [occFrom, List.isPrefixOf, hc, ih]

theorem lastIdxOf_cons_replicate {c : Char} (hc : c ≠ 'x') (pat : Str) (n : Nat) :
    lastIdxOf (c :: pat) (List.replicate n 'x') = none := by
  unfold lastIdxOf occurrences
  rw [occFrom_cons_replicate hc pat n 0]
  rfl

theorem chooseCut_replicate (e n : Nat) : chooseCut e (List.replicate n 'x') = n := by
  have h1 : ((-5 : Int) < 3 * (e : Int)) := by omega
  unfold chooseCut
  rw [show s2l "\n\n" = ('\n' :: ['\n'] : Str) from rfl,
    show s2l ". " = ('.' :: [' '] : Str) from rfl,
    show s2l " " = (' ' :: ([] : Str)) from rfl,
    lastIdxOf_cons_replicate (by decide) _ n,
    lastIdxOf_cons_replicate (by decide) _ n,
    lastIdxOf_cons_replicate (by decide) _ n]
  simp [h1]

theorem dropWhile_isWS_replicate (n : Nat) :
    List.dropWhile isWS (List.replicate n 'x') = List.replicate n 'x' := by
  cases n with
  | zero => rfl
  | succ n =>
    rw [List.replicate_succ]
    simp [List.dropWhile_cons, isWS]

theorem trim_replicate_x (n : Nat) : trim (List.replicate n 'x') = List.replicate n 'x' := by
  unfold trim trimLeft trimRight
  rw [dropWhile_isWS_replicate, List.reverse_replicate, dropWhile_isWS_replicate,
    List.reverse_replicate]

theorem filter_cr_replicate (n : Nat) :
    (List.replicate n 'x').filter (fun c => c ≠ '\r') = List.replicate n 'x' := by
  induction n with
  | zero => rfl
  | succ n ih =>
    rw [List.replicate_succ]
    simp [List.filter_cons, ih]

theorem squash_cons (c : Char) (l : Str) :
    squashLineEnds (c :: l)
      = if (c = ' ' || c = '\t') && (squashLineEnds l).head? = some '\n' then squashLineEnds l
        else c :: squashLineEnds l := rfl

theorem squash_replicate (n : Nat) :
    squashLineEnds (List.replicate n 'x') = List.replicate n 'x' := by
  induction n with
  | zero => rfl
  | succ n ih =>
    rw [List.replicate_succ, squash_cons, ih]
    simp

theorem cleanText_replicate (n : Nat) :
    cleanText (List.replicate n 'x') = List.replicate n 'x' := by
  unfold cleanText
  rw [filter_cr_replicate, squash_replicate, trim_replicate_x]

theorem isEmpty_replicate_false {n : Nat} (h : n ≠ 0) :
    (List.replicate n 'x').isEmpty = false := by
  cases n with
  | zero => exact absurd rfl h
  | succ n =>
    rw [List.replicate_succ]
    rfl

theorem step_big_1 (idx : Nat) (acc : List TextChunk) :
    chunkStepWith chooseCut 4000 400 (List.replicate 4001 'x') 0 idx acc
      = Sum.inl (3600, idx + 1, acc ++ [⟨idx, List.replicate 4000 'x'⟩]) := by
  have hslice : jsSlice (List.replicate 4001 'x') 0 4000 = List.replicate 4000 'x' := by
    unfold jsSlice
    rw [List.drop_zero, List.take_replicate,
      show min (4000 - 0) 4001 = 4000 from by omega]
  have hlen : (List.replicate 4001 'x' : Str).length = 4001 := by
    rw [List.length_replicate]
  have hpe : (List.replicate 4000 'x').isEmpty = false := isEmpty_replicate_false (by omega)
  simp only [chunkStepWith, hlen]
  rw [show min (0 + 4000) 4001 = 4000 from by omega]
  rw [hslice, chooseCut_replicate, List.take_replicate, Nat.min_self, trim_replicate_x, hpe]
  norm_num

theorem step_big_2 (idx : Nat) (acc : List TextChunk) :
    chunkStepWith chooseCut 4000 400 (List.replicate 4001 'x') 3600 idx acc
      = Sum.inr (acc ++ [⟨idx, List.replicate 401 'x'⟩]) := by
  have hslice : jsSlice (List.replicate 4001 'x') 3600 4001 = List.replicate 401 'x' := by
    unfold jsSlice
    rw [List.drop_replicate, List.take_replicate,
      show min (4001 - 3600) (4001 - 3600) = 401 from by omega]
  have hlen : (List.replicate 4001 'x' : Str).length = 4001 := by
    rw [List.length_replicate]
  have hpe : (List.replicate 401 'x').isEmpty = false := isEmpty_replicate_false (by omega)
  simp only [chunkStepWith, hlen]
  rw [show min (3600 + 4000) 4001 = 4001 from by omega]
  rw [hslice, chooseCut_replicate, List.take_replicate, Nat.min_self, trim_replicate_x, hpe]
  norm_num

theorem chunkText_big :
    chunkText (List.replicate 4001 'x') 1000 100 = some exBigChunks := by
  unfold chunkText chunkTextWith
  have hne : ¬ ((List.replicate 4001 'x').isEmpty = true) := by
    rw [isEmpty_replicate_false (by omega)]
    simp
  rw [trim_replicate_x, if_neg hne]
  show chunkLoopWith chooseCut 4000 400 (cleanText (List.replicate 4001 'x'))
    ((cleanText (List.replicate 4001 'x')).length + 1) 0 0 [] = some exBigChunks
  rw [cleanText_replicate, List.length_replicate]
  show chunkLoopWith chooseCut 4000 400 (List.replicate 4001 'x') (4001 + 1) 0 0 []
    = some exBigChunks
  rw [chunkLoopWith, if_neg (by rw [List.length_replicate]; omega), step_big_1 0 []]
  show chunkLoopWith chooseCut 4000 400 (List.replicate 4001 'x') (4000 + 1) 3600 1
    [⟨0, List.replicate 4000 'x'⟩] = some exBigChunks
  rw [chunkLoopWith, if_neg (by rw [List.length_replicate]; omega),
    step_big_2 1 [⟨0, List.replicate 4000 'x'⟩]]
  rfl

theorem emFirstBatch_hit : emFirstBatch [List.replicate 4000 'x'] = some [0] := by
  unfold emFirstBatch
  rw [show ([List.replicate 4000 'x'] : List Str).map List.length = [4000] from by
    rw [List.map_cons, List.map_nil, List.length_replicate]]
  rfl

theorem emFirstBatch_miss : emFirstBatch [List.replicate 401 'x'] = none := by
  unfold emFirstBatch
  rw [show ([List.replicate 401 'x'] : List Str).map List.length = [401] from by
    rw [List.map_cons, List.map_nil, List.length_replicate]]
  rfl

theorem embedBatchesGo_big_tail :
    embedBatchesGo emFirstBatch 1 1 [(⟨1, List.replicate 401 'x'⟩ : TextChunk)] = none := by
  show embedBatchesGo emFirstBatch 1 (0 + 1) [(⟨1, List.replicate 401 'x'⟩ : TextChunk)] = none
  rw [embedBatchesGo]
  rw [if_neg (by decide : ¬ (1 = 0))]
  rw [show ((List.take 1 [(⟨1, List.replicate 401 'x'⟩ : TextChunk)]).map (·.content))
    = [List.replicate 401 'x'] from rfl]
  rw [emFirstBatch_miss]

set_option maxRecDepth 4000 in
theorem embedBatches_big : embedBatches emFirstBatch 1 exBigChunks = none := by
  show embedBatchesGo emFirstBatch 1 (1 + 1)
    [(⟨0, List.replicate 4000 'x'⟩ : TextChunk), ⟨1, List.replicate 401 'x'⟩] = none
  rw [embedBatchesGo]
  rw [if_neg (by decide : ¬ (1 = 0))]
  rw [show ((List.take 1 [(⟨0, List.replicate 4000 'x'⟩ : TextChunk),
      ⟨1, List.replicate 401 'x'⟩]).map (·.content)) = [List.replicate 4000 'x'] from rfl]
  rw [emFirstBatch_hit]
  show (if (List.take 1 [(⟨0, List.replicate 4000 'x'⟩ : TextChunk),
        ⟨1, List.replicate 401 'x'⟩]).length < ([0] : List Nat).length then none
      else
        match embedBatchesGo emFirstBatch 1 1
            (List.drop 1 [(⟨0, List.replicate 4000 'x'⟩ : TextChunk),
              ⟨1, List.replicate 401 'x'⟩]) with
        | none => none
        | some rest =>
          some ((List.take 1 [(⟨0, List.replicate 4000 'x'⟩ : TextChunk),
              ⟨1, List.replicate 401 'x'⟩]).zip [0] ++ rest)) = none
  rw [if_neg (by decide :
    ¬ (List.take 1 [(⟨0, List.replicate 4000 'x'⟩ : TextChunk),
        ⟨1, List.replicate 401 'x'⟩]).length < ([0] : List Nat).length)]
  rw [show (List.drop 1 [(⟨0, List.replicate 4000 'x'⟩ : TextChunk),
      ⟨1, List.replicate 401 'x'⟩]) = [(⟨1, List.replicate 401 'x'⟩ : TextChunk)] from rfl]
  rw [embedBatchesGo_big_tail]

theorem embedBatchesClaimGo_big_tail :
    embedBatchesClaimGo emFirstBatch 1 1 [(⟨1, List.replicate 401 'x'⟩ : TextChunk)]
      = (([] : List (List (TextChunk × Nat))), false) := by
  show embedBatchesClaimGo emFirstBatch 1 (0 + 1) [(⟨1, List.replicate 401 'x'⟩ : TextChunk)]
    = ([], false)
  rw [embedBatchesClaimGo]
  rw [if_neg (by decide : ¬ (1 = 0))]
  rw [show ((List.take 1 [(⟨1, List.replicate 401 'x'⟩ : TextChunk)]).map (·.content))
    = [List.replicate 401 'x'] from rfl]
  rw [emFirstBatch_miss]

set_option maxRecDepth 4000 in
theorem embedBatchesClaim_big :
    embedBatchesClaim emFirstBatch 1 exBigChunks
      = ([[((⟨0, List.replicate 4000 'x'⟩ : TextChunk), (0 : Nat))]], false) := by
  show embedBatchesClaimGo emFirstBatch 1 (1 + 1)
    [(⟨0, List.replicate 4000 'x'⟩ : TextChunk), ⟨1, List.replicate 401 'x'⟩]
    = ([[(⟨0, List.replicate 4000 'x'⟩, 0)]], false)
  rw [embedBatchesClaimGo]
  rw [if_neg (by decide : ¬ (1 = 0))]
  rw [show ((List.take 1 [(⟨0, List.replicate 4000 'x'⟩ : TextChunk),
      ⟨1, List.replicate 401 'x'⟩]).map (·.content)) = [List.replicate 4000 'x'] from rfl]
  rw [emFirstBatch_hit]
  show (if (List.take 1 [(⟨0, List.replicate 4000 'x'⟩ : TextChunk),
        ⟨1, List.replicate 401 'x'⟩]).length < ([0] : List Nat).length then
        (([] : List (List (TextChunk × Nat))), false)
      else
        match embedBatchesClaimGo emFirstBatch 1 1
            (List.drop 1 [(⟨0, List.replicate 4000 'x'⟩ : TextChunk),
              ⟨1, List.replicate 401 'x'⟩]) with
        | (rest, ok) =>
          ((List.take 1 [(⟨0, List.replicate 4000 'x'⟩ : TextChunk),
              ⟨1, List.replicate 401 'x'⟩]).zip [0] :: rest, ok))
    = ([[(⟨0, List.replicate 4000 'x'⟩, 0)]], false)
  rw [if_neg (by decide :
    ¬ (List.take 1 [(⟨0, List.replicate 4000 'x'⟩ : TextChunk),
        ⟨1, List.replicate 401 'x'⟩]).length < ([0] : List Nat).length)]
  rw [show (List.drop 1 [(⟨0, List.replicate 4000 'x'⟩ : TextChunk),
      ⟨1, List.replicate 401 'x'⟩]) = [(⟨1, List.replicate 401 'x'⟩ : TextChunk)] from rfl]
  rw [embedBatchesClaimGo_big_tail]
  rfl

/-- Claim C3 is refuted: on a 4001-character document processed with batch
size 1, the first embedding batch succeeds and the second throws; the code
makes NO upsert call at all (vectors are accumulated and upserted once,
after the loop) while the per-batch-upsert behaviour the claim describes
would already have upserted the first batch's vector. So a failure in a
later batch leaves nothing of the run indexed — not "the earlier batches'
vectors durably indexed". -/
theorem claim_C3_counterexample :
    processDoc emFirstBatch 1 bigDoc
        = some ⟨{ processingStatus := some PStatus.error,
                  errorMessage := some (s2l "Embedding/indexing failed") }, [], false⟩ ∧
      processDocClaim emFirstBatch 1 bigDoc
        = some ⟨{ processingStatus := some PStatus.error,
                  errorMessage := some (s2l "Embedding/indexing failed") },
                [[bigVec0]], false⟩ := by
  have hne : ¬ ((List.replicate 4001 'x').isEmpty = true) := by
    rw [isEmpty_replicate_false (by omega)]
    simp
  constructor
  · unfold processDoc
    rw [show bigDoc.extractedContent.getD [] = List.replicate 4001 'x' from rfl]
    rw [trim_replicate_x, if_neg hne]
    rw [chunkText_big]
    show (if exBigChunks.isEmpty = true then _ else _) = _
    rw [if_neg (by decide : ¬ (exBigChunks.isEmpty = true))]
    rw [embedBatches_big]
  · unfold processDocClaim
    rw [show bigDoc.extractedContent.getD [] = List.replicate 4001 'x' from rfl]
    rw [trim_replicate_x, if_neg hne]
    rw [chunkText_big]
    show (if exBigChunks.isEmpty = true then _ else _) = _
    rw [if_neg (by decide : ¬ (exBigChunks.isEmpty = true))]
    rw [embedBatchesClaim_big]
    rfl

end Rag

